import Mathlib

/-!
Verification of the response-normalization component of the airfreight
rate-extraction service (`app/extract.py`).

The Python code is shallowly embedded: Python values that can appear in a
JSON-like document are modelled by the inductive type `Val`; Python dicts
are association lists preserving insertion order; code that can raise an
exception (attribute errors on non-dict values, iteration over
non-iterables) runs in `Except String`.  Pure helpers (`str.strip`,
`str.split`, the date arithmetic of `datetime`/`timedelta`, and the
`strptime` behaviour for the seven formats the code uses) are modelled by
executable Lean functions.
-/

/-- A Python value as it can occur inside a JSON-like document:
`None`, booleans, integers, strings, lists and string-keyed dicts. -/
inductive Val where
  | vnone : Val
  | vbool : Bool → Val
  | vint : Int → Val
  | vstr : String → Val
  | vlist : List Val → Val
  | vdict : List (String × Val) → Val

/-- A Python dict with string keys, as an insertion-ordered association list. -/
abbrev Dict := List (String × Val)

/-- Python truthiness for the embedded values (`bool(v)`). -/
def truthy : Val → Bool
  | Val.vnone => false
  | Val.vbool b => b
  | Val.vint n => n != 0
  | Val.vstr s => s != ""
  | Val.vlist xs => !xs.isEmpty
  | Val.vdict d => !d.isEmpty

/-- Dict lookup (`d[k]` / `d.get(k)` without default). -/
def dget : Dict → String → Option Val
  | [], _ => none
  | (k1, v1) :: rest, k => if k1 = k then some v1 else dget rest k

/-- Dict update `d[k] = v`: replaces the value at an existing key in place,
appends a new key at the end (Python insertion-order semantics). -/
def dsetKey : Dict → String → Val → Dict
  | [], k, v => [(k, v)]
  | (k1, v1) :: rest, k, v =>
      if k1 = k then (k, v) :: rest else (k1, v1) :: dsetKey rest k v

/-- The sub-dict walked into by `_set_in`: an existing dict value is kept,
anything else (missing key or non-dict value) is replaced by a fresh `{}`. -/
def subDict : Option Val → Dict
  | some (Val.vdict sd) => sd
  | _ => []

/-- `_set_in(d, path, value)` from `app/extract.py`: walk/create nested dicts
for all path segments but the last, then set the leaf.  The Python code
mutates `d`; on tree-shaped values (as produced by JSON decoding) that is
the same as this pure rebuild.  `_set_in` is never called with an empty
path (`str.split` never returns an empty list); that case returns `d`. -/
def set_in : Dict → List String → Val → Dict
  | d, [], _ => d
  | d, [k], v => dsetKey d k v
  | d, k :: k2 :: rest, v =>
      dsetKey d k (Val.vdict (set_in (subDict (dget d k)) (k2 :: rest) v))

/-- Reading a value back through a dotted path: the nested location the
spec's Field Flattener (§4.1) talks about.  Returns `none` when some
intermediate value is not a dict or a key is absent. -/
def getPath : Dict → List String → Option Val
  | _, [] => none
  | d, [k] => dget d k
  | d, k :: k2 :: rest =>
      match dget d k with
      | some (Val.vdict sd) => getPath sd (k2 :: rest)
      | _ => none

/-- `name.split(".")` on the character list: Python splits on every dot and
an empty string yields `[""]`, so the result is never empty. -/
def splitDot : List Char → List String
  | [] => [""]
  | c :: rest =>
      if c = '.' then "" :: splitDot rest
      else
        match splitDot rest with
        | [] => [String.mk [c]]
        | h :: t => String.mk (c :: h.toList) :: t

/-- Two dotted paths that are incomparable: neither is a (possibly equal)
prefix of the other.  `set_in` along one cannot disturb the other. -/
def disjointPath : List String → List String → Bool
  | [], _ => false
  | _, [] => false
  | a :: as, b :: bs => if a = b then disjointPath as bs else true

/-- Python `str.strip()` (restricted to the ASCII whitespace the inputs of
this service contain): drop whitespace from both ends. -/
def pyStrip (s : String) : String :=
  String.mk (((s.toList.dropWhile Char.isWhitespace).reverse.dropWhile
    Char.isWhitespace).reverse)

/-- The single-quote character, used by the Python `repr` of strings. -/
def squote : String := String.mk [Char.ofNat 39]

mutual

/-- Python `repr` for the embedded values (only its totality matters to the
claims; string contents of dict/list reprs are never inspected). -/
def pyRepr : Val → String
  | Val.vnone => "None"
  | Val.vbool true => "True"
  | Val.vbool false => "False"
  | Val.vint n => toString n
  | Val.vstr s => squote ++ s ++ squote
  | Val.vlist xs => "[" ++ String.intercalate ", " (pyReprItems xs) ++ "]"
  | Val.vdict d => "\x7b" ++ String.intercalate ", " (pyReprPairs d) ++ "\x7d"

/-- `repr` of the elements of a list value. -/
def pyReprItems : List Val → List String
  | [] => []
  | x :: xs => pyRepr x :: pyReprItems xs

/-- `repr` of the key/value pairs of a dict value. -/
def pyReprPairs : List (String × Val) → List String
  | [] => []
  | (k, v) :: rest =>
      (squote ++ k ++ squote ++ ": " ++ pyRepr v) :: pyReprPairs rest

end

/-- Python `str(v)`: a string is returned as itself, every other value is
rendered through its `repr`. -/
def pyToStr : Val → String
  | Val.vstr s => s
  | v => pyRepr v

/-- `_string_num_or_none(v)` from `app/extract.py`: `None` becomes the
literal string `"null"`; otherwise `str(v)` is stripped and an empty
result also becomes `"null"`. -/
def string_num_or_none : Val → String
  | Val.vnone => "null"
  | v => let s := pyStrip (pyToStr v); if s = "" then "null" else s

/-- Proleptic-Gregorian leap-year rule used by Python `datetime`. -/
def isLeap (y : Nat) : Bool :=
  (y % 4 == 0 && y % 100 != 0) || y % 400 == 0

/-- Number of days in month `m` of year `y` (Python `calendar` rule). -/
def daysInMonth (y m : Nat) : Nat :=
  if m = 2 then (if isLeap y then 29 else 28)
  else if m = 4 ∨ m = 6 ∨ m = 9 ∨ m = 11 then 30
  else 31

/-- The calendar day after `(y, m, d)`. -/
def nextDay : Nat × Nat × Nat → Nat × Nat × Nat
  | (y, m, d) =>
      if d < daysInMonth y m then (y, m, d + 1)
      else if m < 12 then (y, m + 1, 1)
      else (y + 1, 1, 1)

/-- `date + timedelta(days = n)`: iterate `nextDay`. -/
def addDays : Nat × Nat × Nat → Nat → Nat × Nat × Nat
  | ymd, 0 => ymd
  | ymd, n + 1 => addDays (nextDay ymd) n

/-- `REF_DATE = datetime(2025, 9, 23)`: the fixed reference date for
relative validity offsets such as `"+14 days"`. -/
def REF_DATE : Nat × Nat × Nat := (2025, 9, 23)

/-- Zero-pad a month/day number to two digits (`%m`, `%d` of `strftime`). -/
def pad2 (n : Nat) : String :=
  if n < 10 then "0" ++ toString n else toString n

/-- Zero-pad a year to four digits (`%Y` of `strftime`). -/
def pad4 (n : Nat) : String :=
  if n < 10 then "000" ++ toString n
  else if n < 100 then "00" ++ toString n
  else if n < 1000 then "0" ++ toString n
  else toString n

/-- `strftime("%Y-%m-%d")` for a `(year, month, day)` triple. -/
def fmtYmd : Nat × Nat × Nat → String
  | (y, m, d) => pad4 y ++ "-" ++ pad2 m ++ "-" ++ pad2 d

/-- Numeric value of a list of decimal digits. -/
def digitsVal (ds : List Char) : Nat :=
  ds.foldl (fun a c => a * 10 + (c.toNat - 48)) 0

/-- One numeric `strptime` field of one or two digits (`%d`, `%m`): CPython
matches the maximal digit run, requires it to have length 1 or 2 and its
value to lie in `[lo, hi]` (`0`/`00` are rejected because `lo ≥ 1`). -/
def readNum12 (lo hi : Nat) (cs : List Char) : Option (Nat × List Char) :=
  let ds := cs.takeWhile Char.isDigit
  if (ds.length = 1 ∨ ds.length = 2) ∧ lo ≤ digitsVal ds ∧ digitsVal ds ≤ hi
  then some (digitsVal ds, cs.dropWhile Char.isDigit)
  else none

/-- The `%Y` field: exactly four digits; year `0` is rejected afterwards by
the `datetime` constructor (`MINYEAR = 1`), folded in here. -/
def readYear (cs : List Char) : Option (Nat × List Char) :=
  let ds := cs.takeWhile Char.isDigit
  if ds.length = 4 ∧ 1 ≤ digitsVal ds
  then some (digitsVal ds, cs.dropWhile Char.isDigit)
  else none

/-- A literal separator character of the format string. -/
def readChar : Char → List Char → Option (List Char)
  | c, x :: rest => if x = c then some rest else none
  | _, [] => none

/-- Whitespace in a `strptime` format matches one or more whitespace
characters of the data (CPython compiles it to `\s+`). -/
def readWs1 (cs : List Char) : Option (List Char) :=
  if (cs.takeWhile Char.isWhitespace).isEmpty then none
  else some (cs.dropWhile Char.isWhitespace)

/-- The validation done by the `datetime` constructor after the regex
match: the day must exist in the parsed month. -/
def validDate (y m d : Nat) : Option (Nat × Nat × Nat) :=
  if d ≤ daysInMonth y m then some (y, m, d) else none

/-- C-locale abbreviated month names matched by `%b` (case-insensitive). -/
def monthAbbrs : List String :=
  ["jan", "feb", "mar", "apr", "may", "jun",
   "jul", "aug", "sep", "oct", "nov", "dec"]

/-- C-locale full month names matched by `%B` (case-insensitive). -/
def monthNames : List String :=
  ["january", "february", "march", "april", "may", "june", "july",
   "august", "september", "october", "november", "december"]

/-- Position (starting at `i`) of `w` in `xs`. -/
def findIn : List String → Nat → String → Option Nat
  | [], _, _ => none
  | x :: rest, i, w => if x = w then some i else findIn rest (i + 1) w

/-- The `%b` field: three letters, lower-cased, looked up among the
abbreviated month names. -/
def readMonAbbr (cs : List Char) : Option (Nat × List Char) :=
  match cs with
  | c1 :: c2 :: c3 :: rest =>
      match findIn monthAbbrs 1 (String.mk [c1.toLower, c2.toLower, c3.toLower]) with
      | some i => some (i, rest)
      | none => none
  | _ => none

/-- Case-insensitive literal match of a (lower-case) month name. -/
def dropNameCI : List Char → List Char → Option (List Char)
  | [], rest => some rest
  | _ :: _, [] => none
  | a :: as, c :: rest => if c.toLower = a then dropNameCI as rest else none

/-- The `%B` field: match one of the full month names (no name is a prefix
of another, so first match is the only match). -/
def findMonFull : List String → Nat → List Char → Option (Nat × List Char)
  | [], _, _ => none
  | nm :: rest, i, cs =>
      match dropNameCI nm.toList cs with
      | some cs2 => some (i, cs2)
      | none => findMonFull rest (i + 1) cs

/-- `strptime(s, "%d<sep>%m<sep>%Y")` followed by the `datetime` range
check; the whole string must be consumed. -/
def parseDMY (sep : Char) (s : String) : Option (Nat × Nat × Nat) := do
  let cs := s.toList
  let (d, cs) ← readNum12 1 31 cs
  let cs ← readChar sep cs
  let (m, cs) ← readNum12 1 12 cs
  let cs ← readChar sep cs
  let (y, cs) ← readYear cs
  if cs.isEmpty then validDate y m d else none

/-- `strptime(s, "%m<sep>%d<sep>%Y")`. -/
def parseMDY (sep : Char) (s : String) : Option (Nat × Nat × Nat) := do
  let cs := s.toList
  let (m, cs) ← readNum12 1 12 cs
  let cs ← readChar sep cs
  let (d, cs) ← readNum12 1 31 cs
  let cs ← readChar sep cs
  let (y, cs) ← readYear cs
  if cs.isEmpty then validDate y m d else none

/-- `strptime(s, "%Y<sep>%m<sep>%d")`. -/
def parseYMD (sep : Char) (s : String) : Option (Nat × Nat × Nat) := do
  let cs := s.toList
  let (y, cs) ← readYear cs
  let cs ← readChar sep cs
  let (m, cs) ← readNum12 1 12 cs
  let cs ← readChar sep cs
  let (d, cs) ← readNum12 1 31 cs
  if cs.isEmpty then validDate y m d else none

/-- `strptime(s, "%d %b %Y")`. -/
def parseDMonAbbr (s : String) : Option (Nat × Nat × Nat) := do
  let cs := s.toList
  let (d, cs) ← readNum12 1 31 cs
  let cs ← readWs1 cs
  let (m, cs) ← readMonAbbr cs
  let cs ← readWs1 cs
  let (y, cs) ← readYear cs
  if cs.isEmpty then validDate y m d else none

/-- `strptime(s, "%d %B %Y")`. -/
def parseDMonFull (s : String) : Option (Nat × Nat × Nat) := do
  let cs := s.toList
  let (d, cs) ← readNum12 1 31 cs
  let cs ← readWs1 cs
  let (m, cs) ← findMonFull monthNames 1 cs
  let cs ← readWs1 cs
  let (y, cs) ← readYear cs
  if cs.isEmpty then validDate y m d else none

/-- `datetime.strptime(s, fmt)` restricted to the seven formats the date
normalizer tries, returning the parsed `(year, month, day)`. -/
def strptimeYmd (fmt : String) (s : String) : Option (Nat × Nat × Nat) :=
  match fmt with
  | "%d-%m-%Y" => parseDMY '-' s
  | "%d/%m/%Y" => parseDMY '/' s
  | "%m/%d/%Y" => parseMDY '/' s
  | "%d.%m.%Y" => parseDMY '.' s
  | "%Y/%m/%d" => parseYMD '/' s
  | "%d %b %Y" => parseDMonAbbr s
  | "%d %B %Y" => parseDMonFull s
  | _ => none

/-- The ordered format list of `_normalize_valid_until`. -/
def knownFormats : List String :=
  ["%d-%m-%Y", "%d/%m/%Y", "%m/%d/%Y", "%d.%m.%Y", "%Y/%m/%d",
   "%d %b %Y", "%d %B %Y"]

/-- The `for fmt in (...)` / `try` / `except` loop: the first format that
parses wins and is reformatted as ISO. -/
def tryFmts (s : String) : List String → Option String
  | [] => none
  | f :: rest =>
      match strptimeYmd f s with
      | some ymd => some (fmtYmd ymd)
      | none => tryFmts s rest

/-- Shape test of the regex `^\d{4}-\d{2}-\d{2}$`: ten characters,
digits in the year/month/day slots, dashes between them. -/
def isoShapeChars : List Char → Bool
  | a :: b :: c :: d :: e :: f :: g :: h :: i :: j :: [] =>
      a.isDigit && b.isDigit && c.isDigit && d.isDigit && e == '-' &&
      f.isDigit && g.isDigit && h == '-' && i.isDigit && j.isDigit
  | _ => false

/-- `re.match(r"^\d{4}-\d{2}-\d{2}$", s)` as a Boolean. -/
def isIsoShape (s : String) : Bool :=
  isoShapeChars s.toList

/-- The `day[s]?` tail of the relative-date regex, case-insensitive. -/
def isDayWord : List Char → Bool
  | d :: a :: y :: rest =>
      d.toLower == 'd' && a.toLower == 'a' && y.toLower == 'y' &&
      (match rest with
       | [] => true
       | [c] => c.toLower == 's'
       | _ => false)
  | _ => false

/-- Character-list core of the relative-date regex
`^\+(\d{1,3})\s*day[s]?$` (case-insensitive): a leading `+`, a maximal run
of one to three digits, optional whitespace, then `day` with an optional
`s`.  Returns the day count. -/
def plusDaysChars : List Char → Option Nat
  | c :: rest =>
      if c = '+' then
        let ds := rest.takeWhile Char.isDigit
        let tl := (rest.dropWhile Char.isDigit).dropWhile Char.isWhitespace
        if 1 ≤ ds.length ∧ ds.length ≤ 3 ∧ isDayWord tl then
          some (digitsVal ds)
        else none
      else none
  | [] => none

/-- `re.match(r"^\+(\d{1,3})\s*day[s]?$", s, re.I)` on a string. -/
def parsePlusDays (s : String) : Option Nat :=
  plusDaysChars s.toList

/-- `_normalize_valid_until(v)` from `app/extract.py`: empty input stays
empty; the stripped input is returned as-is when it already has the ISO
shape; a `"+N day(s)"` offset is added to `REF_DATE`; otherwise the known
formats are tried in order and on total failure the stripped string is
returned. -/
def normalize_valid_until (v : String) : String :=
  if v = "" then ""
  else
    let s := pyStrip v
    if isIsoShape s then s
    else
      match parsePlusDays s with
      | some n => fmtYmd (addDays REF_DATE n)
      | none =>
          match tryFmts s knownFormats with
          | some r => r
          | none => s

/-- Python `f.get(k, dflt)`: raises `AttributeError` unless `f` is a dict. -/
def pyGet (f : Val) (k : String) (dflt : Val) : Except String Val :=
  match f with
  | Val.vdict d => Except.ok ((dget d k).getD dflt)
  | _ => Except.error "AttributeError"

/-- Python iteration `for f in v`: lists yield their elements, strings
their characters, dicts their keys; other values raise `TypeError`. -/
def pyIterList : Val → Except String (List Val)
  | Val.vlist xs => Except.ok xs
  | Val.vstr s => Except.ok (s.toList.map (fun c => Val.vstr (String.mk [c])))
  | Val.vdict d => Except.ok (d.map (fun e => Val.vstr e.1))
  | _ => Except.error "TypeError"

/-- Python `name.split(".")`: raises `AttributeError` unless `name` is a
string. -/
def pyStrSplitDot : Val → Except String (List String)
  | Val.vstr s => Except.ok (splitDot s.toList)
  | _ => Except.error "AttributeError"

/-- One iteration of the `_dotpaths_to_nested` loop: read `name` and
`value`, skip falsy names, split the name on dots and insert. -/
def procField (out : Dict) (f : Val) : Except String Dict := do
  let name ← pyGet f "name" Val.vnone
  let value ← pyGet f "value" Val.vnone
  if truthy name then do
    let parts ← pyStrSplitDot name
    Except.ok (set_in out parts value)
  else
    Except.ok out

/-- `_dotpaths_to_nested(extracted_fields)` from `app/extract.py`,
including the `extracted_fields or []` default. -/
def dotpaths_to_nested (extracted_fields : Val) : Except String Dict := do
  let base := if truthy extracted_fields then extracted_fields else Val.vlist []
  let fs ← pyIterList base
  fs.foldlM procField ([] : Dict)

/-- `mk_rate(node)` from `app/extract.py`: read `per_kg` and `min_charge`
with default `""` and canonicalize through `_string_num_or_none`.  Raises
(`AttributeError`) when `node` is not a dict. -/
def mk_rate (node : Val) : Except String Val := do
  let pk ← pyGet node "per_kg" (Val.vstr "")
  let mc ← pyGet node "min_charge" (Val.vstr "")
  Except.ok (Val.vdict
    [("per_kg", Val.vstr (string_num_or_none pk)),
     ("min_charge", Val.vstr (string_num_or_none mc))])

/-- The category lookup of the assembler:
`flat.get(parent, {}).get(cat, {}) if isinstance(flat.get(parent, {}), dict) else {}`.
Only the parent is guarded by `isinstance`; the category value itself is
returned as found. -/
def catNode (flat : Dict) (parent cat : String) : Val :=
  match (dget flat parent).getD (Val.vdict []) with
  | Val.vdict pd => (dget pd cat).getD (Val.vdict [])
  | _ => Val.vdict []

/-- `extract_airline_rate_fields(chunkr_response)` from `app/extract.py`. -/
def extract_airline_rate_fields (chunkr_response : Val) : Except String Val := do
  let base := if truthy chunkr_response then chunkr_response else Val.vdict []
  let ej0 ← pyGet base "extracted_json" Val.vnone
  let ej := if truthy ej0 then ej0 else Val.vdict []
  let ef0 ← pyGet ej "extracted_fields" Val.vnone
  let fields := if truthy ef0 then ef0 else Val.vlist []
  let flat ← dotpaths_to_nested fields
  let vu :=
    match (dget flat "valid_until").getD (Val.vstr "") with
    | Val.vstr s => normalize_valid_until s
    | _ => ""
  let cur :=
    match (dget flat "currency").getD (Val.vstr "") with
    | Val.vstr s => s
    | _ => ""
  let rs ← mk_rate (catNode flat "rates" "stackable")
  let rn ← mk_rate (catNode flat "rates" "non-stackable")
  let rh ← mk_rate (catNode flat "rates" "hazardous")
  let rm ← mk_rate (catNode flat "rates" "mix")
  let rg ← mk_rate (catNode flat "rates" "general")
  let sp ← mk_rate (catNode flat "screeningPrices" "primaryScreeningPrice")
  let ss ← mk_rate (catNode flat "screeningPrices" "secondaryScreeningPrice")
  let ff ← mk_rate (catNode flat "FFWH" "fuelSurcharge")
  let fc ← mk_rate (catNode flat "FFWH" "freightCharge")
  let fw ← mk_rate (catNode flat "FFWH" "warRiskSurcharge")
  let fh ← mk_rate (catNode flat "FFWH" "handlingFee")
  Except.ok (Val.vdict
    [("valid_until", Val.vstr vu),
     ("currency", Val.vstr cur),
     ("rates", Val.vdict
       [("stackable", rs), ("non-stackable", rn), ("hazardous", rh),
        ("mix", rm), ("general", rg)]),
     ("screeningPrices", Val.vdict
       [("primaryScreeningPrice", sp), ("secondaryScreeningPrice", ss)]),
     ("FFWH", Val.vdict
       [("fuelSurcharge", ff), ("freightCharge", fc),
        ("warRiskSurcharge", fw), ("handlingFee", fh)])])

/-- The all-default rate node `{"per_kg": "null", "min_charge": "null"}`. -/
def nullNode : Val :=
  Val.vdict [("per_kg", Val.vstr "null"), ("min_charge", Val.vstr "null")]

/-- The fixed-shape output document produced when no fields are extracted. -/
def defaultOutput : Val :=
  Val.vdict
    [("valid_until", Val.vstr ""),
     ("currency", Val.vstr ""),
     ("rates", Val.vdict
       [("stackable", nullNode), ("non-stackable", nullNode),
        ("hazardous", nullNode), ("mix", nullNode), ("general", nullNode)]),
     ("screeningPrices", Val.vdict
       [("primaryScreeningPrice", nullNode),
        ("secondaryScreeningPrice", nullNode)]),
     ("FFWH", Val.vdict
       [("fuelSurcharge", nullNode), ("freightCharge", nullNode),
        ("warRiskSurcharge", nullNode), ("handlingFee", nullNode)])]

/-- A response in which the extraction service put a plain string at the
dotted path `rates.stackable`: the category node is a non-mapping. -/
def nonMappingCategoryInput : Val :=
  Val.vdict
    [("extracted_json", Val.vdict
      [("extracted_fields", Val.vlist
        [Val.vdict
          [("name", Val.vstr "rates.stackable"),
           ("value", Val.vstr "9.5")]])])]

/-! ### Helper lemmas -/

@[simp] theorem exc_pure_eq_ok {α : Type} (a : α) :
    (pure a : Except String α) = Except.ok a := rfl

@[simp] theorem exc_bind_ok {α β : Type} (a : α) (f : α → Except String β) :
    (Except.ok a >>= f) = f a := rfl

@[simp] theorem exc_bind_error {α β : Type} (e : String)
    (f : α → Except String β) :
    ((Except.error e : Except String α) >>= f) = Except.error e := rfl

theorem exc_ok_of_bind {α β : Type} {x : Except String α}
    {f : α → Except String β} {b : β} (h : (x >>= f) = Except.ok b) :
    ∃ a, x = Except.ok a ∧ f a = Except.ok b := by
  cases x with
  | ok a => exact ⟨a, rfl, h⟩
  | error e => simp at h

theorem splitDot_ne_nil (cs : List Char) : splitDot cs ≠ [] := by
  cases cs with
  | nil => simp [splitDot]
  | cons c rest =>
      simp only [splitDot]
      by_cases hc : c = '.'
      · simp [hc]
      · simp only [hc, if_false]
        cases splitDot rest <;> simp

@[simp] theorem dget_dsetKey_self (d : Dict) (k : String) (v : Val) :
    dget (dsetKey d k v) k = some v := by
  induction d with
  | nil => simp [dsetKey, dget]
  | cons e rest ih =>
      obtain ⟨k1, v1⟩ := e
      by_cases hk : k1 = k
      · simp [dsetKey, hk, dget]
      · simp [dsetKey, hk, dget, ih]

theorem dget_dsetKey_ne (d : Dict) (k q : String) (v : Val) (h : q ≠ k) :
    dget (dsetKey d k v) q = dget d q := by
  have h2 : k ≠ q := Ne.symm h
  induction d with
  | nil => simp [dsetKey, dget, h2]
  | cons e rest ih =>
      obtain ⟨k1, v1⟩ := e
      by_cases hk : k1 = k
      · subst hk
        simp [dsetKey, dget, h2]
      · simp only [dsetKey, hk, if_false]
        by_cases hq : k1 = q
        · simp [dget, hq]
        · simp [dget, hq, ih]

@[simp] theorem getPath_nil_dict (p : List String) :
    getPath ([] : Dict) p = none := by
  match p with
  | [] => rfl
  | [k] => rfl
  | k :: k2 :: rest => simp [getPath, dget]

theorem getPath_set_in_self :
    ∀ (p : List String) (d : Dict) (v : Val), p ≠ [] →
      getPath (set_in d p v) p = some v := by
  intro p
  induction p with
  | nil => intro d v h; exact absurd rfl h
  | cons k rest ih =>
      intro d v _
      cases rest with
      | nil => simp [set_in, getPath]
      | cons k2 rest2 =>
          simp only [set_in, getPath, dget_dsetKey_self]
          exact ih _ v (by simp)

theorem getPath_set_in_disjoint :
    ∀ (q : List String) (d : Dict) (p : List String) (w : Val),
      disjointPath p q = true → getPath (set_in d q w) p = getPath d p := by
  intro q
  induction q with
  | nil =>
      intro d p w h
      cases p <;> simp [disjointPath] at h
  | cons k qs ih =>
      intro d p w h
      cases p with
      | nil => simp [disjointPath] at h
      | cons a as =>
          by_cases hak : a = k
          · subst hak
            rw [disjointPath, if_pos rfl] at h
            cases as with
            | nil => cases qs <;> simp [disjointPath] at h
            | cons a2 as2 =>
                cases qs with
                | nil => simp [disjointPath] at h
                | cons q2 qs2 =>
                    have hrec := ih (subDict (dget d a)) (a2 :: as2) w h
                    simp only [set_in, getPath, dget_dsetKey_self]
                    rw [hrec]
                    cases hda : dget d a with
                    | none => simp [subDict]
                    | some x => cases x <;> simp [subDict]
          · cases qs with
            | nil =>
                cases as with
                | nil => simp [set_in, getPath, dget_dsetKey_ne d k a w hak]
                | cons a2 as2 =>
                    simp [set_in, getPath, dget_dsetKey_ne d k a w hak]
            | cons q2 qs2 =>
                cases as with
                | nil =>
                    simp only [set_in, getPath]
                    rw [dget_dsetKey_ne _ _ _ _ hak]
                | cons a2 as2 =>
                    simp only [set_in, getPath]
                    rw [dget_dsetKey_ne _ _ _ _ hak]

theorem truthy_vstr_of_ne (s : String) (h : s ≠ "") :
    truthy (Val.vstr s) = true := by
  simp [truthy, h]

theorem dget_eq_some_of_getD_vstr (d : Dict) (k : String) (s : String)
    (h : (dget d k).getD Val.vnone = Val.vstr s) :
    dget d k = some (Val.vstr s) := by
  cases hd : dget d k with
  | none => rw [hd] at h; simp [Option.getD] at h
  | some x => rw [hd] at h; simp [Option.getD] at h; rw [h]

theorem foldlM_split :
    ∀ (l1 l2 : List Val) (acc flat : Dict),
      List.foldlM procField acc (l1 ++ l2) = Except.ok flat →
      ∃ mid, List.foldlM procField acc l1 = Except.ok mid ∧
             List.foldlM procField mid l2 = Except.ok flat := by
  intro l1
  induction l1 with
  | nil =>
      intro l2 acc flat h
      exact ⟨acc, rfl, h⟩
  | cons x xs ih =>
      intro l2 acc flat h
      rw [List.cons_append] at h
      simp only [List.foldlM] at h ⊢
      obtain ⟨acc1, hx, hrest⟩ := exc_ok_of_bind h
      obtain ⟨mid, h1, h2⟩ := ih l2 acc1 flat hrest
      refine ⟨mid, ?_, h2⟩
      rw [hx]
      simpa using h1

theorem foldlM_keeps (p : List String) (v : Val) :
    ∀ (post : List Val) (acc flat : Dict),
      List.foldlM procField acc post = Except.ok flat →
      getPath acc p = some v →
      (∀ g ∈ post, ∀ gd nm2, g = Val.vdict gd →
          dget gd "name" = some (Val.vstr nm2) → nm2 ≠ "" →
          disjointPath p (splitDot nm2.toList) = true) →
      getPath flat p = some v := by
  intro post
  induction post with
  | nil =>
      intro acc flat h hacc _
      simp only [List.foldlM, exc_pure_eq_ok, Except.ok.injEq] at h
      rw [← h]
      exact hacc
  | cons g gs ih =>
      intro acc flat h hacc hpost
      simp only [List.foldlM] at h
      obtain ⟨acc1, hg, hrest⟩ := exc_ok_of_bind h
      have hacc1 : getPath acc1 p = some v := by
        cases g with
        | vdict gd =>
            simp only [procField, pyGet, exc_bind_ok] at hg
            cases htr : truthy ((dget gd "name").getD Val.vnone) with
            | false =>
                rw [htr] at hg
                simp at hg
                rw [← hg]
                exact hacc
            | true =>
                rw [htr] at hg
                simp only [if_true] at hg
                cases hnm0 : (dget gd "name").getD Val.vnone with
                | vstr s =>
                    rw [hnm0] at hg htr
                    simp only [pyStrSplitDot, exc_bind_ok, Except.ok.injEq] at hg
                    have hs : s ≠ "" := by
                      intro he; rw [he] at htr; simp [truthy] at htr
                    have hdj := hpost (Val.vdict gd) (by simp) gd s (by rfl)
                      (dget_eq_some_of_getD_vstr gd "name" s hnm0) hs
                    rw [← hg]
                    rw [getPath_set_in_disjoint (splitDot s.toList) acc p _ hdj]
                    exact hacc
                | vnone => rw [hnm0] at htr; simp [truthy] at htr
                | vbool b =>
                    rw [hnm0] at hg
                    simp [pyStrSplitDot] at hg
                | vint n =>
                    rw [hnm0] at hg
                    simp [pyStrSplitDot] at hg
                | vlist xs =>
                    rw [hnm0] at hg
                    simp [pyStrSplitDot] at hg
                | vdict dd =>
                    rw [hnm0] at hg
                    simp [pyStrSplitDot] at hg
        | vnone => simp [procField, pyGet] at hg
        | vbool b => simp [procField, pyGet] at hg
        | vint n => simp [procField, pyGet] at hg
        | vstr s => simp [procField, pyGet] at hg
        | vlist xs => simp [procField, pyGet] at hg
      exact ih acc1 flat hrest hacc1
        (fun g2 hg2 => hpost g2 (by simp [hg2]))

/-! ### Claim theorems -/

/-- C1: the claim says `extract_airline_rate_fields` never raises and turns
any category node that is not a mapping into a default rate node.  The code
only `isinstance`-guards the parent group (`rates`, `screeningPrices`,
`FFWH`), not the category node itself: when the extraction yields the
string `"9.5"` at the dotted path `rates.stackable`, `mk_rate` calls
`.get` on a string and the function raises `AttributeError`. -/
theorem C1_raises_on_non_mapping_category :
    extract_airline_rate_fields nonMappingCategoryInput =
      Except.error "AttributeError" := rfl

/-- C2 as stated is false: with the conflicting dotted paths `a.b` and `a`
(in that order) the flattened mapping is `{"a": "2"}` and the path `a.b`
of the first entry, although it occurs exactly once, reaches no value at
its nested location. -/
theorem C2_counterexample :
    dotpaths_to_nested (Val.vlist
      [Val.vdict [("name", Val.vstr "a.b"), ("value", Val.vstr "1")],
       Val.vdict [("name", Val.vstr "a"), ("value", Val.vstr "2")]]) =
      Except.ok [("a", Val.vstr "2")] ∧
    getPath [("a", Val.vstr "2")] (splitDot "a.b".toList) = none :=
  ⟨rfl, rfl⟩

/-- C2 (amended): for every extracted-field list on which the flattener
succeeds, an entry with a non-empty name whose dotted path is not a prefix
of, and does not extend, the path of any later entry — in particular the
last of several entries sharing one path — has its value reachable at its
nested location in the output mapping. -/
theorem C2_flatten_last_write
    (pre post : List Val) (fd : Dict) (nm : String) (flat : Dict)
    (hname : dget fd "name" = some (Val.vstr nm))
    (hnm : nm ≠ "")
    (h : dotpaths_to_nested (Val.vlist (pre ++ Val.vdict fd :: post)) =
      Except.ok flat)
    (hpost : ∀ g ∈ post, ∀ gd nm2, g = Val.vdict gd →
        dget gd "name" = some (Val.vstr nm2) → nm2 ≠ "" →
        disjointPath (splitDot nm.toList) (splitDot nm2.toList) = true) :
    getPath flat (splitDot nm.toList) =
      some ((dget fd "value").getD Val.vnone) := by
  have hne : (pre ++ Val.vdict fd :: post) ≠ [] := by
    cases pre <;> simp
  have htr : truthy (Val.vlist (pre ++ Val.vdict fd :: post)) = true := by
    cases pre <;> simp [truthy]
  unfold dotpaths_to_nested at h
  rw [htr] at h
  simp only [if_true, pyIterList, exc_bind_ok] at h
  obtain ⟨mid, hpre2, hrest⟩ := foldlM_split pre (Val.vdict fd :: post) [] flat h
  simp only [List.foldlM] at hrest
  obtain ⟨acc1, hstep, hpost2⟩ := exc_ok_of_bind hrest
  have hsname : (dget fd "name").getD Val.vnone = Val.vstr nm := by
    rw [hname]; rfl
  have hstep2 : acc1 =
      set_in mid (splitDot nm.toList) ((dget fd "value").getD Val.vnone) := by
    simp only [procField, pyGet, exc_bind_ok, hsname,
      truthy_vstr_of_ne nm hnm, if_true, pyStrSplitDot,
      Except.ok.injEq] at hstep
    exact hstep.symm
  have hacc1 : getPath acc1 (splitDot nm.toList) =
      some ((dget fd "value").getD Val.vnone) := by
    rw [hstep2]
    exact getPath_set_in_self (splitDot nm.toList) mid _
      (splitDot_ne_nil nm.toList)
  exact foldlM_keeps (splitDot nm.toList) ((dget fd "value").getD Val.vnone)
    post acc1 flat hpost2 hacc1 hpost

/-- Witness for C2: the duplicated path `rates.stackable.per_kg` resolves
to its last occurrence `"2"`. -/
theorem C2_witness :
    getPath
      [("rates", Val.vdict
        [("stackable", Val.vdict [("per_kg", Val.vstr "2")])])]
      (splitDot "rates.stackable.per_kg".toList) = some (Val.vstr "2") :=
  C2_flatten_last_write
    [Val.vdict [("name", Val.vstr "rates.stackable.per_kg"),
                ("value", Val.vstr "1")]]
    []
    [("name", Val.vstr "rates.stackable.per_kg"), ("value", Val.vstr "2")]
    "rates.stackable.per_kg"
    [("rates", Val.vdict
      [("stackable", Val.vdict [("per_kg", Val.vstr "2")])])]
    rfl (by decide) rfl (by simp)

theorem snn_of_ne_none (v : Val) (h : v ≠ Val.vnone) :
    string_num_or_none v =
      if pyStrip (pyToStr v) = "" then "null" else pyStrip (pyToStr v) := by
  cases v with
  | vnone => exact absurd rfl h
  | vbool b => rfl
  | vint n => rfl
  | vstr s => rfl
  | vlist xs => rfl
  | vdict d => rfl

theorem snn_ne_empty (v : Val) : string_num_or_none v ≠ "" := by
  have hgen : ∀ s : String, (if s = "" then "null" else s) ≠ "" := by
    intro s
    by_cases h : s = "" <;> simp [h]
  cases v with
  | vnone => simp [string_num_or_none]
  | vbool b => exact hgen (pyStrip (pyToStr (Val.vbool b)))
  | vint n => exact hgen (pyStrip (pyToStr (Val.vint n)))
  | vstr s => exact hgen (pyStrip (pyToStr (Val.vstr s)))
  | vlist xs => exact hgen (pyStrip (pyToStr (Val.vlist xs)))
  | vdict d => exact hgen (pyStrip (pyToStr (Val.vdict d)))

/-- C3: on every dict node, the Rate Node Builder returns a dict with
exactly the two keys `per_kg` and `min_charge`, both strings and never the
empty string; a missing or `None` sub-field value yields the literal
`"null"`, and any other value yields its stripped string rendering, with
`"null"` substituted when that stripped string is empty. -/
theorem C3_rate_node_shape (node : Dict) :
    ∃ a b,
      mk_rate (Val.vdict node) = Except.ok (Val.vdict
        [("per_kg", Val.vstr a), ("min_charge", Val.vstr b)]) ∧
      a ≠ "" ∧ b ≠ "" ∧
      ((dget node "per_kg").getD Val.vnone = Val.vnone → a = "null") ∧
      (∀ v, (dget node "per_kg").getD Val.vnone = v → v ≠ Val.vnone →
        a = if pyStrip (pyToStr v) = "" then "null" else pyStrip (pyToStr v)) ∧
      ((dget node "min_charge").getD Val.vnone = Val.vnone → b = "null") ∧
      (∀ v, (dget node "min_charge").getD Val.vnone = v → v ≠ Val.vnone →
        b = if pyStrip (pyToStr v) = "" then "null" else pyStrip (pyToStr v)) := by
  refine ⟨string_num_or_none ((dget node "per_kg").getD (Val.vstr "")),
          string_num_or_none ((dget node "min_charge").getD (Val.vstr "")),
          rfl, snn_ne_empty _, snn_ne_empty _, ?_, ?_, ?_, ?_⟩
  · intro h
    cases hd : dget node "per_kg" with
    | none => rfl
    | some x =>
        rw [hd] at h
        simp only [Option.getD] at h
        simp only [Option.getD]
        rw [h]
        rfl
  · intro v hv hne
    cases hd : dget node "per_kg" with
    | none =>
        rw [hd] at hv
        simp only [Option.getD] at hv
        exact absurd hv.symm hne
    | some x =>
        rw [hd] at hv
        simp only [Option.getD] at hv
        simp only [Option.getD]
        rw [hv]
        exact snn_of_ne_none v hne
  · intro h
    cases hd : dget node "min_charge" with
    | none => rfl
    | some x =>
        rw [hd] at h
        simp only [Option.getD] at h
        simp only [Option.getD]
        rw [h]
        rfl
  · intro v hv hne
    cases hd : dget node "min_charge" with
    | none =>
        rw [hd] at hv
        simp only [Option.getD] at hv
        exact absurd hv.symm hne
    | some x =>
        rw [hd] at hv
        simp only [Option.getD] at hv
        simp only [Option.getD]
        rw [hv]
        exact snn_of_ne_none v hne

/-- Witness for C3 at a node with a padded numeric `per_kg` and a `None`
`min_charge`. -/
theorem C3_witness :
    ∃ a b,
      mk_rate (Val.vdict [("per_kg", Val.vstr " 9.5 "), ("min_charge", Val.vnone)]) =
        Except.ok (Val.vdict
          [("per_kg", Val.vstr a), ("min_charge", Val.vstr b)]) ∧
      a ≠ "" ∧ b ≠ "" ∧
      ((dget [("per_kg", Val.vstr " 9.5 "), ("min_charge", Val.vnone)] "per_kg").getD
          Val.vnone = Val.vnone → a = "null") ∧
      (∀ v, (dget [("per_kg", Val.vstr " 9.5 "), ("min_charge", Val.vnone)] "per_kg").getD
          Val.vnone = v → v ≠ Val.vnone →
        a = if pyStrip (pyToStr v) = "" then "null" else pyStrip (pyToStr v)) ∧
      ((dget [("per_kg", Val.vstr " 9.5 "), ("min_charge", Val.vnone)] "min_charge").getD
          Val.vnone = Val.vnone → b = "null") ∧
      (∀ v, (dget [("per_kg", Val.vstr " 9.5 "), ("min_charge", Val.vnone)] "min_charge").getD
          Val.vnone = v → v ≠ Val.vnone →
        b = if pyStrip (pyToStr v) = "" then "null" else pyStrip (pyToStr v)) :=
  C3_rate_node_shape [("per_kg", Val.vstr " 9.5 "), ("min_charge", Val.vnone)]

/-- C7: whenever the located extracted-fields value is missing or falsy
(absent key, `None`, empty list), the assembler returns the fixed-shape
document with all 11 rate nodes `{"per_kg": "null", "min_charge": "null"}`,
empty `currency`, and empty `valid_until`; and an empty `valid_until`
input normalizes to the empty string. -/
theorem C7_missing_fields_default :
    (∀ (resp : Dict) (e : Dict),
      (if truthy ((dget resp "extracted_json").getD Val.vnone)
       then (dget resp "extracted_json").getD Val.vnone
       else Val.vdict []) = Val.vdict e →
      truthy ((dget e "extracted_fields").getD Val.vnone) = false →
      extract_airline_rate_fields (Val.vdict resp) = Except.ok defaultOutput)
    ∧ normalize_valid_until "" = "" := by
  constructor
  · intro resp e hej hf
    have hbase : (if truthy (Val.vdict resp) then Val.vdict resp
        else Val.vdict []) = Val.vdict resp := by
      cases resp <;> simp [truthy]
    simp only [extract_airline_rate_fields, hbase, pyGet, exc_bind_ok, hej, hf,
      Bool.false_eq_true, if_false]
    rfl
  · rfl

/-- Witness for C7 at the empty response document. -/
theorem C7_witness :
    extract_airline_rate_fields (Val.vdict []) = Except.ok defaultOutput :=
  (C7_missing_fields_default.1) [] [] rfl rfl

theorem isDigit_not_ws (c : Char) (h : c.isDigit = true) :
    c.isWhitespace = false := by
  cases hw : c.isWhitespace with
  | false => rfl
  | true =>
      exfalso
      simp only [Char.isWhitespace, Bool.or_eq_true, decide_eq_true_eq] at hw
      simp only [Char.isDigit, Bool.and_eq_true, decide_eq_true_eq] at h
      rcases hw with ((h1 | h1) | h1) | h1 <;> subst h1 <;>
        exact absurd h (by decide)

theorem isoShape_head_digit (c : Char) (cs : List Char)
    (h : isoShapeChars (c :: cs) = true) : c.isDigit = true := by
  rcases cs with _ | ⟨b, _ | ⟨c3, _ | ⟨d, _ | ⟨e, _ | ⟨f, _ | ⟨g, _ | ⟨h8, _ |
    ⟨i, _ | ⟨j, _ | ⟨k, tl⟩⟩⟩⟩⟩⟩⟩⟩⟩⟩ <;>
    simp only [isoShapeChars, Bool.and_eq_true] at h <;>
    first
    | exact Bool.noConfusion h
    | exact h.1.1.1.1.1.1.1.1.1

theorem readNum12_plusHead (lo hi : Nat) (cs : List Char) :
    readNum12 lo hi ('+' :: cs) = none := rfl

theorem parseDMY_plusHead (sep : Char) (s : String) (cs : List Char)
    (hl : s.toList = '+' :: cs) : parseDMY sep s = none := by
  unfold parseDMY
  rw [hl]
  rfl

theorem parseMDY_plusHead (sep : Char) (s : String) (cs : List Char)
    (hl : s.toList = '+' :: cs) : parseMDY sep s = none := by
  unfold parseMDY
  rw [hl]
  rfl

theorem parseYMD_plusHead (sep : Char) (s : String) (cs : List Char)
    (hl : s.toList = '+' :: cs) : parseYMD sep s = none := by
  unfold parseYMD
  rw [hl]
  rfl

theorem parseDMonAbbr_plusHead (s : String) (cs : List Char)
    (hl : s.toList = '+' :: cs) : parseDMonAbbr s = none := by
  unfold parseDMonAbbr
  rw [hl]
  rfl

theorem parseDMonFull_plusHead (s : String) (cs : List Char)
    (hl : s.toList = '+' :: cs) : parseDMonFull s = none := by
  unfold parseDMonFull
  rw [hl]
  rfl

theorem iso_false_of_plusHead (s : String) (cs : List Char)
    (hl : s.toList = '+' :: cs) : isIsoShape s = false := by
  unfold isIsoShape
  rw [hl]
  cases hE : isoShapeChars ('+' :: cs) with
  | false => rfl
  | true => exact absurd (isoShape_head_digit '+' cs hE) (by decide)

theorem tryFmts_none (s : String) :
    ∀ fmts : List String, (∀ f ∈ fmts, strptimeYmd f s = none) →
      tryFmts s fmts = none := by
  intro fmts
  induction fmts with
  | nil => intro _; rfl
  | cons f rest ih =>
      intro h
      have hf : strptimeYmd f s = none := h f (by simp)
      simp only [tryFmts, hf]
      exact ih (fun g hg => h g (by simp [hg]))

theorem tryFmts_hit (s : String) :
    ∀ (pre : List String) (f : String) (post : List String)
      (ymd : Nat × Nat × Nat),
      (∀ g ∈ pre, strptimeYmd g s = none) →
      strptimeYmd f s = some ymd →
      tryFmts s (pre ++ f :: post) = some (fmtYmd ymd) := by
  intro pre
  induction pre with
  | nil =>
      intro f post ymd _ hf
      simp [tryFmts, hf]
  | cons g gs ih =>
      intro f post ymd hpre hf
      have hg : strptimeYmd g s = none := hpre g (by simp)
      simp only [List.cons_append, tryFmts, hg]
      exact ih f post ymd (fun x hx => hpre x (by simp [hx])) hf

theorem tryFmts_plusHead (s : String) (cs : List Char)
    (hl : s.toList = '+' :: cs) : tryFmts s knownFormats = none := by
  apply tryFmts_none
  intro f hf
  simp only [knownFormats, List.mem_cons, List.not_mem_nil, or_false] at hf
  rcases hf with h | h | h | h | h | h | h <;> subst h
  · exact parseDMY_plusHead '-' s cs hl
  · exact parseDMY_plusHead '/' s cs hl
  · exact parseMDY_plusHead '/' s cs hl
  · exact parseDMY_plusHead '.' s cs hl
  · exact parseYMD_plusHead '/' s cs hl
  · exact parseDMonAbbr_plusHead s cs hl
  · exact parseDMonFull_plusHead s cs hl

theorem norm_iso (v : String) (h : isIsoShape (pyStrip v) = true) :
    normalize_valid_until v = pyStrip v := by
  have hv : v ≠ "" := by
    intro he
    subst he
    exact absurd h (by decide)
  simp [normalize_valid_until, hv, h]

theorem pyStrip_eq_of_iso (s : String) (h : isIsoShape s = true) :
    pyStrip s = s := by
  unfold isIsoShape at h
  rcases hl : s.toList with _ | ⟨a, _ | ⟨b, _ | ⟨c, _ | ⟨d, _ | ⟨e, _ | ⟨f, _ |
    ⟨g, _ | ⟨h8, _ | ⟨i, _ | ⟨j, _ | ⟨k, tl⟩⟩⟩⟩⟩⟩⟩⟩⟩⟩⟩ <;>
    rw [hl] at h <;>
    simp only [isoShapeChars, Bool.and_eq_true] at h <;>
    try exact Bool.noConfusion h
  have ha : a.isDigit = true := h.1.1.1.1.1.1.1.1.1
  have hj : j.isDigit = true := h.2
  have hwa := isDigit_not_ws a ha
  have hwj := isDigit_not_ws j hj
  unfold pyStrip
  rw [hl]
  simp only [List.dropWhile, hwa, hwj, List.reverse_cons, List.reverse_nil,
    List.nil_append, List.cons_append, List.append_nil, List.singleton_append]
  rw [← hl]
  rfl

/-- C4 as stated is false: the final fallback returns `s`, the **stripped**
string, not the original input, so an unrecognized input with surrounding
whitespace comes back without it. -/
theorem C4_counterexample :
    normalize_valid_until " sometime next month " = "sometime next month" ∧
    (" sometime next month " : String) ≠ "sometime next month" :=
  ⟨rfl, by decide⟩

/-- C4 (amended): for every non-empty input whose stripped form does not
match the ISO shape, does not match the `"+N day(s)"` pattern, and fails
every known format, the normalizer returns the **stripped** input (hence
the input unchanged exactly when it carries no leading or trailing
whitespace) and raises no error. -/
theorem C4_unparsed_fallback (v : String) (h0 : v ≠ "")
    (h1 : isIsoShape (pyStrip v) = false)
    (h2 : parsePlusDays (pyStrip v) = none)
    (h3 : ∀ f ∈ knownFormats, strptimeYmd f (pyStrip v) = none) :
    normalize_valid_until v = pyStrip v := by
  have h4 := tryFmts_none (pyStrip v) knownFormats h3
  simp [normalize_valid_until, h0, h1, h2, h4]

/-- Witness for C4 at an unrecognized date phrase without padding. -/
theorem C4_witness :
    normalize_valid_until "sometime next month" = pyStrip "sometime next month" :=
  C4_unparsed_fallback "sometime next month" (by decide) (by decide) (by decide)
    (by decide)

/-- C5: every stripped input matching the `"+N day(s)"` pattern yields
`REF_DATE + N days` rendered as `YYYY-MM-DD`. -/
theorem C5_plus_days (v : String) (n : Nat)
    (h : parsePlusDays (pyStrip v) = some n) :
    normalize_valid_until v = fmtYmd (addDays REF_DATE n) := by
  have hv : v ≠ "" := by
    intro he
    subst he
    rw [show parsePlusDays (pyStrip "") = none from rfl] at h
    exact Option.noConfusion h
  have hplus : ∃ cs, (pyStrip v).toList = '+' :: cs := by
    cases hl : (pyStrip v).toList with
    | nil =>
        unfold parsePlusDays at h
        rw [hl] at h
        exact Option.noConfusion h
    | cons c rest =>
        by_cases hc : c = '+'
        · subst hc
          exact ⟨rest, rfl⟩
        · unfold parsePlusDays at h
          rw [hl] at h
          simp only [plusDaysChars, hc, if_false] at h
          exact Option.noConfusion h
  obtain ⟨cs, hl⟩ := hplus
  have hiso := iso_false_of_plusHead (pyStrip v) cs hl
  simp [normalize_valid_until, hv, hiso, h]

/-- Witness for C5: `"+14 Days"` maps to 2025-09-23 + 14 days. -/
theorem C5_witness : normalize_valid_until "+14 Days" = "2025-10-07" := by
  have h := C5_plus_days "+14 Days" 14 (by decide)
  rw [h]
  rfl

/-- C6: when the stripped input reaches the format loop, the formats are
tried in the fixed order of `knownFormats` and the first one that parses
wins, its result reformatted as `YYYY-MM-DD`. -/
theorem C6_first_format_wins (v : String) (pre2 : List String) (f : String)
    (post2 : List String) (ymd : Nat × Nat × Nat)
    (h0 : v ≠ "")
    (h1 : isIsoShape (pyStrip v) = false)
    (h2 : parsePlusDays (pyStrip v) = none)
    (hsplit : knownFormats = pre2 ++ f :: post2)
    (hpre : ∀ g ∈ pre2, strptimeYmd g (pyStrip v) = none)
    (hhit : strptimeYmd f (pyStrip v) = some ymd) :
    normalize_valid_until v = fmtYmd ymd := by
  have h4 : tryFmts (pyStrip v) knownFormats = some (fmtYmd ymd) := by
    rw [hsplit]
    exact tryFmts_hit (pyStrip v) pre2 f post2 ymd hpre hhit
  simp [normalize_valid_until, h0, h1, h2, h4]

/-- Witness for C6: `"01/02/2025"` fails `%d-%m-%Y`, is captured day-first
by `%d/%m/%Y` (before `%m/%d/%Y`), giving February 1st. -/
theorem C6_witness : normalize_valid_until "01/02/2025" = "2025-02-01" := by
  have h := C6_first_format_wins "01/02/2025" ["%d-%m-%Y"] "%d/%m/%Y"
    ["%m/%d/%Y", "%d.%m.%Y", "%Y/%m/%d", "%d %b %Y", "%d %B %Y"]
    (2025, 2, 1) (by decide) (by decide) (by decide) rfl (by decide) (by decide)
  rw [h]
  rfl

/-- C8: the normalizer is the identity on every string that matches the
ISO shape `YYYY-MM-DD` exactly, so it is idempotent on its own ISO
outputs. -/
theorem C8_iso_idempotent (s : String) (h : isIsoShape s = true) :
    normalize_valid_until s = s := by
  have h2 : isIsoShape (pyStrip s) = true := by
    rw [pyStrip_eq_of_iso s h]
    exact h
  rw [norm_iso s h2, pyStrip_eq_of_iso s h]

/-- Witness for C8 on a genuine ISO date. -/
theorem C8_witness : normalize_valid_until "2025-01-31" = "2025-01-31" :=
  C8_iso_idempotent "2025-01-31" (by decide)

/-- C9: the relative-date rule caps the day count at three digits; with
four or more digits after the `+` it does not fire, and since `+` can
start none of the known formats the input falls through to the stripped
fallback. -/
theorem C9_relative_rule_digit_bound (v : String) (cs : List Char)
    (hl : (pyStrip v).toList = '+' :: cs)
    (h4 : 4 ≤ (cs.takeWhile Char.isDigit).length) :
    parsePlusDays (pyStrip v) = none ∧
    normalize_valid_until v = pyStrip v := by
  have hn3 : ¬((cs.takeWhile Char.isDigit).length ≤ 3) := by omega
  have hparse : parsePlusDays (pyStrip v) = none := by
    unfold parsePlusDays
    rw [hl]
    simp [plusDaysChars, hn3]
  have hv : v ≠ "" := by
    intro he
    subst he
    rw [show (pyStrip "").toList = ([] : List Char) from rfl] at hl
    exact List.noConfusion hl
  have hiso := iso_false_of_plusHead (pyStrip v) cs hl
  have htf := tryFmts_plusHead (pyStrip v) cs hl
  refine ⟨hparse, ?_⟩
  simp [normalize_valid_until, hv, hiso, hparse, htf]

/-- Witness for C9 at `"+1000 days"`. -/
theorem C9_witness :
    parsePlusDays (pyStrip "+1000 days") = none ∧
    normalize_valid_until "+1000 days" = pyStrip "+1000 days" :=
  C9_relative_rule_digit_bound "+1000 days"
    ['1', '0', '0', '0', ' ', 'd', 'a', 'y', 's'] (by decide) (by decide)

/-- C10: the ISO fast path is purely syntactic: any stripped input of the
digit shape `dddd-dd-dd` is returned as-is, with no calendar validation of
the month and day ranges. -/
theorem C10_iso_fast_path_syntactic (v : String)
    (h : isIsoShape (pyStrip v) = true) :
    normalize_valid_until v = pyStrip v :=
  norm_iso v h

/-- Witness for C10 on the impossible calendar date 2025-13-45. -/
theorem C10_witness :
    normalize_valid_until " 2025-13-45 " = "2025-13-45" :=
  (C10_iso_fast_path_syntactic " 2025-13-45 " (by decide)).trans (by decide)
